import Mathlib

/-!
Shallow embedding of the `videohub` Go package (StechLabs/pydeohub-old):
a TCP client for the Blackmagic Videohub text protocol.  Pure string
manipulation and state updates are translated directly from the Go source;
operations that can raise a Go run-time panic (slice indexing out of
bounds, `make` with a negative size) are modelled as `Option`-returning
functions where `none` is the panic.  Socket I/O is abstracted: the reader
loop is modelled as a function from the list of lines read off the wire to
the list of payloads handed to `decodeMessage`, and the connection
functions are modelled over a Boolean dial oracle.
-/

namespace Pydeohub

/-! ### Go standard library string helpers -/

/-- All characters are decimal digits, and the list is nonempty:
the digit part of the `strconv.Atoi` syntax. -/
def decimalDigits : List Char → Option Nat
  | [] => none
  | cs => go cs 0
where
  go : List Char → Nat → Option Nat
    | [], acc => some acc
    | c :: rest, acc =>
      if c.isDigit then go rest (acc * 10 + (c.toNat - 48)) else none

/-- Model of Go `strconv.Atoi` with the error discarded, as the source
`parseInt` does: an optional sign followed by decimal digits; any syntax
error yields 0; a value outside the 64-bit `int` range is clamped to the
nearest bound (the value `strconv.ParseInt` returns alongside `ErrRange`). -/
def goAtoi (s : String) : Int :=
  match s.data with
  | '+' :: rest => fromDigits rest false
  | '-' :: rest => fromDigits rest true
  | cs => fromDigits cs false
where
  fromDigits (cs : List Char) (neg : Bool) : Int :=
    match decimalDigits cs with
    | none => 0
    | some n =>
      if neg then
        if (n : Int) > 2 ^ 63 then -(2 ^ 63) else -(n : Int)
      else
        if (n : Int) > 2 ^ 63 - 1 then 2 ^ 63 - 1 else (n : Int)

/-- The source helper `parseInt`: `strconv.Atoi` with the error ignored. -/
def parseInt (s : String) : Int := goAtoi s

/-- When `pat` is a leading segment of `s`, the remainder of `s` after it;
otherwise `none`. -/
def dropLeading? : List Char → List Char → Option (List Char)
  | [], s => some s
  | _ :: _, [] => none
  | p :: ps, c :: cs => if p = c then dropLeading? ps cs else none

/-- Splitting a character list around each non-overlapping occurrence of a
nonempty separator, left to right, with a fuel argument so the recursion
is structural (fuel at least the input length suffices, since each step
consumes at least one character). -/
def splitCharsFuel (sep : List Char) : Nat → List Char → List (List Char)
  | _, [] => [[]]
  | 0, s => [s]
  | fuel + 1, c :: cs =>
    match dropLeading? sep (c :: cs) with
    | some rest => [] :: splitCharsFuel sep fuel rest
    | none =>
      match splitCharsFuel sep fuel cs with
      | [] => [[c]]
      | p :: ps => (c :: p) :: ps

/-- Go `strings.Split(s, sep)` for a nonempty separator: split around
every non-overlapping occurrence; never returns an empty list. -/
def goSplit (s sep : String) : List String :=
  (splitCharsFuel sep.data s.data.length s.data).map String.mk

/-- Go `strings.SplitN(s, sep, 2)`: at most two parts, the second part is
the unsplit remainder after the first separator occurrence. -/
def goSplitN2 (s sep : String) : List String :=
  match goSplit s sep with
  | [] => []
  | x :: rest => if rest.isEmpty then [x] else [x, String.intercalate sep rest]

/-- Go `strings.HasSuffix`. -/
def goHasSuffix (s suffix : String) : Bool :=
  (dropLeading? suffix.data.reverse s.data.reverse).isSome

/-- The last `n` characters of `s` removed (the effect of the Go slice
expression `s[:len(s)-n]` on ASCII data, and of `String.dropRight`). -/
def goDropRight (s : String) (n : Nat) : String :=
  String.mk (s.data.take (s.data.length - n))

/-- Go `strings.TrimSuffix`. -/
def goTrimSuffix (s suffix : String) : String :=
  if goHasSuffix s suffix then goDropRight s suffix.data.length else s

/-! ### Device State

The mirror fields of the Go `Videohub` struct.  The connection handle, the
logger, the IP and the reader wait group are I/O plumbing with no influence
on the decoded state and are not part of the model.  Go zero values give
the initial state. -/

structure Videohub where
  protocolVersion : String
  model : String
  uniqueID : String
  inputs : Int
  outputs : Int
  inputLabels : List String
  outputLabels : List String
  routing : List Int
deriving Repr, DecidableEq

/-- Field values of a freshly constructed `Videohub` (Go zero values;
`nil` slices are empty lists). -/
def initialVideohub : Videohub :=
  { protocolVersion := "", model := "", uniqueID := ""
    inputs := 0, outputs := 0
    inputLabels := [], outputLabels := [], routing := [] }

/-- Go slice element assignment `l[i] = x` with an `int` index: a runtime
panic (`none`) unless `0 ≤ i < len(l)`. -/
def setSlice {α : Type} (l : List α) (i : Int) (x : α) : Option (List α) :=
  if 0 ≤ i ∧ i.toNat < l.length then some (l.set i.toNat x) else none

/-! ### Block handlers (the Block Router targets) -/

/-- Handler for the `PROTOCOL PREAMBLE` block: body lines are split on
the separator `": "`; only exact `Key: Value` pairs with key `Version`
are retained. -/
def processProtocolPreamble (contents : List String) (vh : Videohub) : Videohub :=
  match contents with
  | [] => vh
  | item :: rest =>
    match goSplit item ": " with
    | [key, value] =>
      if key = "Version" then
        processProtocolPreamble rest { vh with protocolVersion := value }
      else
        processProtocolPreamble rest vh
    | _ => processProtocolPreamble rest vh

/-- One `VIDEOHUB DEVICE` body line applied to the state.  `make` with a
negative length panics in Go, hence `none` when a count parses negative.
The routing slice is created and then filled with -1 by the source loop;
the composite effect is `List.replicate m (-1)`. -/
def applyDeviceItem (vh : Videohub) (item : String) : Option Videohub :=
  match goSplit item ": " with
  | [key, value] =>
    if key = "Model name" then some { vh with model := value }
    else if key = "Unique ID" then some { vh with uniqueID := value }
    else if key = "Video inputs" then
      let n := parseInt value
      if n < 0 then none
      else some { vh with inputs := n, inputLabels := List.replicate n.toNat "" }
    else if key = "Video outputs" then
      let m := parseInt value
      if m < 0 then none
      else some { vh with outputs := m, outputLabels := List.replicate m.toNat ""
                          routing := List.replicate m.toNat (-1) }
    else some vh
  | _ => some vh

/-- Handler for the `VIDEOHUB DEVICE` block. -/
def processVideohubDevice (contents : List String) (vh : Videohub) : Option Videohub :=
  match contents with
  | [] => some vh
  | item :: rest =>
    match applyDeviceItem vh item with
    | some vh2 => processVideohubDevice rest vh2
    | none => none

/-- Handler for the `INPUT LABELS` block: each line is split at the FIRST
space only (`strings.SplitN(item, " ", 2)`); the write
`vh.inputLabels[i] = label` has no bounds check in the source, so an
out-of-range parsed index panics (`none`). -/
def processInputLabels (contents : List String) (vh : Videohub) : Option Videohub :=
  match contents with
  | [] => some vh
  | item :: rest =>
    match goSplitN2 item " " with
    | [iTok, label] =>
      match setSlice vh.inputLabels (parseInt iTok) label with
      | some ls => processInputLabels rest { vh with inputLabels := ls }
      | none => none
    | _ => processInputLabels rest vh

/-- Handler for the `OUTPUT LABELS` block, same shape as the input one. -/
def processOutputLabels (contents : List String) (vh : Videohub) : Option Videohub :=
  match contents with
  | [] => some vh
  | item :: rest =>
    match goSplitN2 item " " with
    | [oTok, label] =>
      match setSlice vh.outputLabels (parseInt oTok) label with
      | some ls => processOutputLabels rest { vh with outputLabels := ls }
      | none => none
    | _ => processOutputLabels rest vh

/-- Handler for the `VIDEO OUTPUT ROUTING` block: each line is fully split
on spaces (`strings.Split`), so exactly one space separates the two
numbers; the write `vh.routing[destination] = source` has no bounds check,
so an out-of-range parsed destination panics (`none`). -/
def processOutputRouting (contents : List String) (vh : Videohub) : Option Videohub :=
  match contents with
  | [] => some vh
  | item :: rest =>
    match goSplit item " " with
    | [dTok, sTok] =>
      match setSlice vh.routing (parseInt dTok) (parseInt sTok) with
      | some r => processOutputRouting rest { vh with routing := r }
      | none => none
    | _ => processOutputRouting rest vh

/-- The Block Router: dispatch on the header line (first line of the
block, trailing `:` stripped).  Unrecognized headers, `VIDEO OUTPUT
LOCKS` and `CONFIGURATION` leave the state unchanged.  The source indexes
`message[0]`; `strings.Split` never returns an empty list, so the
`headD ""` default is unreachable from `decodeMessage`. -/
def responseProcessor (message : List String) (vh : Videohub) : Option Videohub :=
  let messageType := goTrimSuffix (message.headD "") ":"
  let contents := message.tail
  if messageType = "PROTOCOL PREAMBLE" then some (processProtocolPreamble contents vh)
  else if messageType = "VIDEOHUB DEVICE" then processVideohubDevice contents vh
  else if messageType = "INPUT LABELS" then processInputLabels contents vh
  else if messageType = "OUTPUT LABELS" then processOutputLabels contents vh
  else if messageType = "VIDEO OUTPUT LOCKS" then some vh
  else if messageType = "VIDEO OUTPUT ROUTING" then processOutputRouting contents vh
  else if messageType = "CONFIGURATION" then some vh
  else some vh

/-- State effect of `decodeMessage`: strip one trailing blank-line
terminator, split into lines, route. -/
def decodeMessage (message : String) (vh : Videohub) : Option Videohub :=
  responseProcessor (goSplit (goTrimSuffix message "\n\n") "\n") vh

/-! ### Frame Reader

The reader loop, modelled on the finite list of delimited lines produced
by successive `reader.ReadBytes` calls (each element carries its trailing
newline).  The model returns the payload strings the loop passes to
`decodeMessage`, in order.  When a line ends with `":\n"` the source reads
exactly ONE further line `l2` and calls
`decodeMessage(append(message[:len(message)-1], message...))` where
`message` is by then `l2`, so the payload is `l2` minus its final byte
followed by `l2` in full; the header line itself is discarded.  Other
lines go to `decodeResponse`, which only logs.  A read error ends the
stream in this model. -/
def readerMessages : List String → List String
  | [] => []
  | line :: rest =>
    if goHasSuffix line ":\n" then
      match rest with
      | [] => []
      | l2 :: rest2 => (goDropRight l2 1 ++ l2) :: readerMessages rest2
    else
      readerMessages rest

/-! ### Connection Manager -/

/-- Observable outcome of a connection attempt.  `log.Fatalf` calls
`os.Exit(1)`, so a failed `net.Dial` terminates the whole process. -/
inductive ConnectResult
  | connected
  | exitProcess
deriving Repr, DecidableEq

/-- The source `connect`: dial, and on any error `log.Fatalf` (process
exit).  The dial outcome is abstracted as a Boolean oracle. -/
def connect (dialSucceeds : Bool) : ConnectResult :=
  if dialSucceeds then ConnectResult.connected else ConnectResult.exitProcess

/-- The source `reconnect`: close the old socket, log, and call
`connect` again; it adds no error handling of its own. -/
def reconnect (dialSucceeds : Bool) : ConnectResult :=
  connect dialSucceeds

/-! ### Wire Codec and Client Facade

Each facade operation builds a command string and hands it to `send`,
which writes the command followed by the block terminator `"\n\n"`. -/

/-- Bytes `send` writes to the socket for a given command. -/
def sendWire (command : String) : String := command ++ "\n\n"

/-- Command built by `Route(destination, source)`. -/
def Route (destination source : Int) : String :=
  "VIDEO OUTPUT ROUTING:\n" ++ toString destination ++ " " ++ toString source

/-- Command built by `BulkRoute(routes)`: the header, then one line per
pair appended in caller order. -/
def BulkRoute (routes : List (Int × Int)) : String :=
  routes.foldl
    (fun command route =>
      command ++ "\n" ++ toString route.1 ++ " " ++ toString route.2)
    "VIDEO OUTPUT ROUTING:"

/-- Command built by `InputLabel(source, label)`. -/
def InputLabel (source : Int) (label : String) : String :=
  "INPUT LABELS:\n" ++ toString source ++ " " ++ label

/-- Command built by `OutputLabel(destination, label)`. -/
def OutputLabel (destination : Int) (label : String) : String :=
  "OUTPUT LABELS:\n" ++ toString destination ++ " " ++ label

/-! ### Specification vocabulary

Helper functions used only to STATE the theorems: which count a device-info
line announces, which index/value pair a body line carries, and the
last-write-wins fold the handlers implement. -/

/-- The count announced by one device-info body line for `key`, when the
line is an exact two-part `key: value` pair. -/
def itemCount (key item : String) : Option Int :=
  match goSplit item ": " with
  | [k, v] => if k = key then some (parseInt v) else none
  | _ => none

/-- The value of the LAST body line announcing `key`, if any. -/
def lastCountValue (key : String) : List String → Option Int
  | [] => none
  | item :: rest =>
    match lastCountValue key rest with
    | some v => some v
    | none => itemCount key item

/-- The index/value pairs a routing block body parses to: exact two-token
lines split on every space, both tokens read by `parseInt`; other lines
are dropped. -/
def routingPairs (contents : List String) : List (Int × Int) :=
  contents.filterMap fun item =>
    match goSplit item " " with
    | [a, b] => some (parseInt a, parseInt b)
    | _ => none

/-- The index/label pairs a label block body parses to: the line is split
at the first space only, so the label keeps any further spaces. -/
def labelPairs (contents : List String) : List (Int × String) :=
  contents.filterMap fun item =>
    match goSplitN2 item " " with
    | [a, b] => some (parseInt a, b)
    | _ => none

/-- Sequential in-place writes `l[i.toNat] := x`, first pair first. -/
def applyWrites {α : Type} : List (Int × α) → List α → List α
  | [], l => l
  | (i, x) :: rest, l => applyWrites rest (l.set i.toNat x)

/-- The value of the LAST pair written at index `j`, if any. -/
def lastWriteFor {α : Type} (j : Nat) : List (Int × α) → Option α
  | [] => none
  | (i, x) :: rest =>
    match lastWriteFor j rest with
    | some y => some y
    | none => if i = (j : Int) then some x else none

/-- Several routing blocks arriving in sequence, each dispatched to
`processOutputRouting` as the Block Router does. -/
def processRoutingBlocks : List (List String) → Videohub → Option Videohub
  | [], vh => some vh
  | b :: rest, vh =>
    match processOutputRouting b vh with
    | some vh2 => processRoutingBlocks rest vh2
    | none => none

/-- All routing pairs of a block sequence, in arrival order. -/
def allRoutingPairs (blocks : List (List String)) : List (Int × Int) :=
  (blocks.map routingPairs).flatten

/-! ### Supporting lemmas -/

theorem applyWrites_length {α : Type} (pairs : List (Int × α)) (l : List α) :
    (applyWrites pairs l).length = l.length := by
  induction pairs generalizing l with
  | nil => rfl
  | cons p rest ih => cases p with | mk i x => simp [applyWrites, ih]

theorem lastWriteFor_mem {α : Type} (j : Nat) (pairs : List (Int × α)) (x : α)
    (h : lastWriteFor j pairs = some x) : ((j : Int), x) ∈ pairs := by
  induction pairs with
  | nil => simp [lastWriteFor] at h
  | cons p rest ih =>
    cases p with | mk i y =>
    rw [lastWriteFor] at h
    cases hrest : lastWriteFor j rest with
    | some z =>
      rw [hrest] at h
      cases h
      exact List.mem_cons_of_mem _ (ih hrest)
    | none =>
      rw [hrest] at h
      by_cases hij : i = (j : Int)
      · rw [if_pos hij] at h
        cases h
        rw [hij]
        exact List.mem_cons_self _ _
      · rw [if_neg hij] at h
        cases h

theorem applyWrites_getElem? {α : Type} (pairs : List (Int × α)) (l : List α) (j : Nat)
    (hpos : ∀ p ∈ pairs, 0 ≤ p.1) :
    (applyWrites pairs l)[j]? =
      match lastWriteFor j pairs with
      | some x => if j < l.length then some x else none
      | none => l[j]? := by
  induction pairs generalizing l with
  | nil => simp [applyWrites, lastWriteFor]
  | cons p rest ih =>
    cases p with | mk i x =>
    rw [applyWrites, lastWriteFor]
    rw [ih (l.set i.toNat x) (fun p hp => hpos p (List.mem_cons_of_mem _ hp))]
    cases hrest : lastWriteFor j rest with
    | some y => simp
    | none =>
      simp only
      by_cases hij : i = (j : Int)
      · rw [if_pos hij]
        have : i.toNat = j := by rw [hij]; rfl
        rw [this, List.getElem?_set]
        simp
      · rw [if_neg hij]
        have h0 : 0 ≤ i := hpos (i, x) (List.mem_cons_self _ _)
        have : i.toNat ≠ j := by
          intro hc
          apply hij
          rw [← hc, Int.toNat_of_nonneg h0]
        rw [List.getElem?_set_ne this]

theorem processOutputRouting_eq (contents : List String) (vh : Videohub)
    (h : ∀ p ∈ routingPairs contents, 0 ≤ p.1 ∧ p.1.toNat < vh.routing.length) :
    processOutputRouting contents vh =
      some { vh with routing := applyWrites (routingPairs contents) vh.routing } := by
  induction contents generalizing vh with
  | nil => simp [processOutputRouting, routingPairs, applyWrites]
  | cons item rest ih =>
    rcases hsplit : goSplit item " " with _ | ⟨a, _ | ⟨b, _ | ⟨c, t⟩⟩⟩
    · have hdrop : routingPairs (item :: rest) = routingPairs rest := by
        simp [routingPairs, List.filterMap_cons, hsplit]
      simp only [processOutputRouting, hsplit, hdrop]
      exact ih vh (hdrop ▸ h)
    · have hdrop : routingPairs (item :: rest) = routingPairs rest := by
        simp [routingPairs, List.filterMap_cons, hsplit]
      simp only [processOutputRouting, hsplit, hdrop]
      exact ih vh (hdrop ▸ h)
    · have hcons : routingPairs (item :: rest) = (parseInt a, parseInt b) :: routingPairs rest := by
        simp [routingPairs, List.filterMap_cons, hsplit]
      rw [hcons] at h
      obtain ⟨ha0, halt⟩ := h _ (List.mem_cons_self _ _)
      have hset : setSlice vh.routing ((parseInt a, parseInt b)).1 ((parseInt a, parseInt b)).2
          = some (vh.routing.set ((parseInt a, parseInt b)).1.toNat ((parseInt a, parseInt b)).2) := by
        simp only [setSlice]
        rw [if_pos ⟨ha0, halt⟩]
      simp only [processOutputRouting, hsplit]
      rw [show setSlice vh.routing (parseInt a) ((parseInt a, parseInt b)).2 = some (vh.routing.set ((parseInt a, parseInt b)).1.toNat ((parseInt a, parseInt b)).2) from hset]
      show processOutputRouting rest { vh with routing := vh.routing.set ((parseInt a, parseInt b)).1.toNat ((parseInt a, parseInt b)).2 } = _
      rw [ih { vh with routing := vh.routing.set ((parseInt a, parseInt b)).1.toNat ((parseInt a, parseInt b)).2 }
            (fun p hp => by
              have hmem := h p (List.mem_cons_of_mem _ hp)
              simpa using hmem)]
      simp [hcons, applyWrites]
    · have hdrop : routingPairs (item :: rest) = routingPairs rest := by
        simp [routingPairs, List.filterMap_cons, hsplit]
      simp only [processOutputRouting, hsplit, hdrop]
      exact ih vh (hdrop ▸ h)

theorem processInputLabels_eq (contents : List String) (vh : Videohub)
    (h : ∀ p ∈ labelPairs contents, 0 ≤ p.1 ∧ p.1.toNat < vh.inputLabels.length) :
    processInputLabels contents vh =
      some { vh with inputLabels := applyWrites (labelPairs contents) vh.inputLabels } := by
  induction contents generalizing vh with
  | nil => simp [processInputLabels, labelPairs, applyWrites]
  | cons item rest ih =>
    rcases hsplit : goSplitN2 item " " with _ | ⟨a, _ | ⟨b, _ | ⟨c, t⟩⟩⟩
    · have hdrop : labelPairs (item :: rest) = labelPairs rest := by
        simp [labelPairs, List.filterMap_cons, hsplit]
      simp only [processInputLabels, hsplit, hdrop]
      exact ih vh (hdrop ▸ h)
    · have hdrop : labelPairs (item :: rest) = labelPairs rest := by
        simp [labelPairs, List.filterMap_cons, hsplit]
      simp only [processInputLabels, hsplit, hdrop]
      exact ih vh (hdrop ▸ h)
    · have hcons : labelPairs (item :: rest) = (parseInt a, b) :: labelPairs rest := by
        simp [labelPairs, List.filterMap_cons, hsplit]
      rw [hcons] at h
      obtain ⟨ha0, halt⟩ := h _ (List.mem_cons_self _ _)
      have hset : setSlice vh.inputLabels ((parseInt a, b)).1 ((parseInt a, b)).2
          = some (vh.inputLabels.set ((parseInt a, b)).1.toNat ((parseInt a, b)).2) := by
        simp only [setSlice]
        rw [if_pos ⟨ha0, halt⟩]
      simp only [processInputLabels, hsplit]
      rw [show setSlice vh.inputLabels (parseInt a) ((parseInt a, b)).2 = some (vh.inputLabels.set ((parseInt a, b)).1.toNat ((parseInt a, b)).2) from hset]
      show processInputLabels rest { vh with inputLabels := vh.inputLabels.set ((parseInt a, b)).1.toNat ((parseInt a, b)).2 } = _
      rw [ih { vh with inputLabels := vh.inputLabels.set ((parseInt a, b)).1.toNat ((parseInt a, b)).2 }
            (fun p hp => by
              have hmem := h p (List.mem_cons_of_mem _ hp)
              simpa using hmem)]
      simp [hcons, applyWrites]
    · have hdrop : labelPairs (item :: rest) = labelPairs rest := by
        simp [labelPairs, List.filterMap_cons, hsplit]
      simp only [processInputLabels, hsplit, hdrop]
      exact ih vh (hdrop ▸ h)

theorem processOutputLabels_eq (contents : List String) (vh : Videohub)
    (h : ∀ p ∈ labelPairs contents, 0 ≤ p.1 ∧ p.1.toNat < vh.outputLabels.length) :
    processOutputLabels contents vh =
      some { vh with outputLabels := applyWrites (labelPairs contents) vh.outputLabels } := by
  induction contents generalizing vh with
  | nil => simp [processOutputLabels, labelPairs, applyWrites]
  | cons item rest ih =>
    rcases hsplit : goSplitN2 item " " with _ | ⟨a, _ | ⟨b, _ | ⟨c, t⟩⟩⟩
    · have hdrop : labelPairs (item :: rest) = labelPairs rest := by
        simp [labelPairs, List.filterMap_cons, hsplit]
      simp only [processOutputLabels, hsplit, hdrop]
      exact ih vh (hdrop ▸ h)
    · have hdrop : labelPairs (item :: rest) = labelPairs rest := by
        simp [labelPairs, List.filterMap_cons, hsplit]
      simp only [processOutputLabels, hsplit, hdrop]
      exact ih vh (hdrop ▸ h)
    · have hcons : labelPairs (item :: rest) = (parseInt a, b) :: labelPairs rest := by
        simp [labelPairs, List.filterMap_cons, hsplit]
      rw [hcons] at h
      obtain ⟨ha0, halt⟩ := h _ (List.mem_cons_self _ _)
      have hset : setSlice vh.outputLabels ((parseInt a, b)).1 ((parseInt a, b)).2
          = some (vh.outputLabels.set ((parseInt a, b)).1.toNat ((parseInt a, b)).2) := by
        simp only [setSlice]
        rw [if_pos ⟨ha0, halt⟩]
      simp only [processOutputLabels, hsplit]
      rw [show setSlice vh.outputLabels (parseInt a) ((parseInt a, b)).2 = some (vh.outputLabels.set ((parseInt a, b)).1.toNat ((parseInt a, b)).2) from hset]
      show processOutputLabels rest { vh with outputLabels := vh.outputLabels.set ((parseInt a, b)).1.toNat ((parseInt a, b)).2 } = _
      rw [ih { vh with outputLabels := vh.outputLabels.set ((parseInt a, b)).1.toNat ((parseInt a, b)).2 }
            (fun p hp => by
              have hmem := h p (List.mem_cons_of_mem _ hp)
              simpa using hmem)]
      simp [hcons, applyWrites]
    · have hdrop : labelPairs (item :: rest) = labelPairs rest := by
        simp [labelPairs, List.filterMap_cons, hsplit]
      simp only [processOutputLabels, hsplit, hdrop]
      exact ih vh (hdrop ▸ h)

theorem applyWrites_append {α : Type} (p q : List (Int × α)) (l : List α) :
    applyWrites (p ++ q) l = applyWrites q (applyWrites p l) := by
  induction p generalizing l with
  | nil => rfl
  | cons x rest ih => cases x; simp [applyWrites, ih]

theorem processRoutingBlocks_eq (blocks : List (List String)) (vh : Videohub)
    (h : ∀ p ∈ allRoutingPairs blocks, 0 ≤ p.1 ∧ p.1.toNat < vh.routing.length) :
    processRoutingBlocks blocks vh =
      some { vh with routing := applyWrites (allRoutingPairs blocks) vh.routing } := by
  induction blocks generalizing vh with
  | nil => simp [processRoutingBlocks, allRoutingPairs, applyWrites]
  | cons b rest ih =>
    have hflat : allRoutingPairs (b :: rest) = routingPairs b ++ allRoutingPairs rest := by
      simp [allRoutingPairs]
    rw [hflat] at h
    rw [processRoutingBlocks]
    rw [processOutputRouting_eq b vh (fun p hp => h p (List.mem_append_left _ hp))]
    show processRoutingBlocks rest { vh with routing := applyWrites (routingPairs b) vh.routing }
        = _
    rw [ih { vh with routing := applyWrites (routingPairs b) vh.routing }
          (fun p hp => by
            have hmem := h p (List.mem_append_right _ hp)
            simpa [applyWrites_length] using hmem)]
    rw [hflat]
    simp [applyWrites_append]

theorem applyDeviceItem_fields (vh : Videohub) (item : String) (vh2 : Videohub)
    (h : applyDeviceItem vh item = some vh2) :
    vh2.inputs = ((itemCount "Video inputs" item).getD vh.inputs)
    ∧ vh2.inputLabels = (match itemCount "Video inputs" item with
        | some n => List.replicate n.toNat ""
        | none => vh.inputLabels)
    ∧ vh2.outputs = ((itemCount "Video outputs" item).getD vh.outputs)
    ∧ vh2.outputLabels = (match itemCount "Video outputs" item with
        | some m => List.replicate m.toNat ""
        | none => vh.outputLabels)
    ∧ vh2.routing = (match itemCount "Video outputs" item with
        | some m => List.replicate m.toNat (-1)
        | none => vh.routing) := by
  rcases hs : goSplit item ": " with _ | ⟨k, _ | ⟨v, _ | ⟨c, t⟩⟩⟩
  · simp only [applyDeviceItem, hs] at h
    injection h with h
    subst h
    simp [itemCount, hs]
  · simp only [applyDeviceItem, hs] at h
    injection h with h
    subst h
    simp [itemCount, hs]
  · simp only [applyDeviceItem, hs] at h
    simp only [itemCount, hs]
    by_cases h1 : k = "Model name"
    · rw [if_pos h1] at h
      injection h with h
      subst h
      subst h1
      simp
    · rw [if_neg h1] at h
      by_cases h2 : k = "Unique ID"
      · rw [if_pos h2] at h
        injection h with h
        subst h
        subst h2
        simp
      · rw [if_neg h2] at h
        by_cases h3 : k = "Video inputs"
        · rw [if_pos h3] at h
          by_cases h4 : parseInt v < 0
          · rw [if_pos h4] at h
            exact Option.noConfusion h
          · rw [if_neg h4] at h
            injection h with h
            subst h
            subst h3
            simp
        · rw [if_neg h3] at h
          by_cases h5 : k = "Video outputs"
          · rw [if_pos h5] at h
            by_cases h6 : parseInt v < 0
            · rw [if_pos h6] at h
              exact Option.noConfusion h
            · rw [if_neg h6] at h
              injection h with h
              subst h
              subst h5
              simp [h3]
          · rw [if_neg h5] at h
            injection h with h
            subst h
            simp [h3, h5]
  · simp only [applyDeviceItem, hs] at h
    injection h with h
    subst h
    simp [itemCount, hs]

theorem processVideohubDevice_fields (contents : List String) :
    ∀ vh vh2 : Videohub, processVideohubDevice contents vh = some vh2 →
    vh2.inputs = ((lastCountValue "Video inputs" contents).getD vh.inputs)
    ∧ vh2.inputLabels = (match lastCountValue "Video inputs" contents with
        | some n => List.replicate n.toNat ""
        | none => vh.inputLabels)
    ∧ vh2.outputs = ((lastCountValue "Video outputs" contents).getD vh.outputs)
    ∧ vh2.outputLabels = (match lastCountValue "Video outputs" contents with
        | some m => List.replicate m.toNat ""
        | none => vh.outputLabels)
    ∧ vh2.routing = (match lastCountValue "Video outputs" contents with
        | some m => List.replicate m.toNat (-1)
        | none => vh.routing) := by
  induction contents with
  | nil =>
    intro vh vh2 h
    simp only [processVideohubDevice] at h
    injection h with h
    subst h
    simp [lastCountValue]
  | cons item rest ih =>
    intro vh vh2 h
    cases happ : applyDeviceItem vh item with
    | none => simp [processVideohubDevice, happ] at h
    | some vhm =>
      simp only [processVideohubDevice, happ] at h
      obtain ⟨ha1, ha2, ha3, ha4, ha5⟩ := applyDeviceItem_fields vh item vhm happ
      obtain ⟨hr1, hr2, hr3, hr4, hr5⟩ := ih vhm vh2 h
      cases hlin : lastCountValue "Video inputs" rest with
      | some n =>
        cases hlout : lastCountValue "Video outputs" rest with
        | some m =>
          refine ⟨?_, ?_, ?_, ?_, ?_⟩ <;>
            simp [hr1, hr2, hr3, hr4, hr5, lastCountValue, hlin, hlout]
        | none =>
          refine ⟨?_, ?_, ?_, ?_, ?_⟩ <;>
            simp [hr1, hr2, hr3, hr4, hr5, ha1, ha2, ha3, ha4, ha5,
                  lastCountValue, hlin, hlout]
      | none =>
        cases hlout : lastCountValue "Video outputs" rest with
        | some m =>
          refine ⟨?_, ?_, ?_, ?_, ?_⟩ <;>
            simp [hr1, hr2, hr3, hr4, hr5, ha1, ha2, ha3, ha4, ha5,
                  lastCountValue, hlin, hlout]
        | none =>
          refine ⟨?_, ?_, ?_, ?_, ?_⟩ <;>
            simp [hr1, hr2, hr3, hr4, hr5, ha1, ha2, ha3, ha4, ha5,
                  lastCountValue, hlin, hlout]

theorem applyDeviceItem_total (vh : Videohub) (item : String)
    (h1 : 0 ≤ (itemCount "Video inputs" item).getD 0)
    (h2 : 0 ≤ (itemCount "Video outputs" item).getD 0) :
    ∃ vh2, applyDeviceItem vh item = some vh2 := by
  rcases hs : goSplit item ": " with _ | ⟨k, _ | ⟨v, _ | ⟨c, t⟩⟩⟩
  · exact ⟨vh, by simp [applyDeviceItem, hs]⟩
  · exact ⟨vh, by simp [applyDeviceItem, hs]⟩
  · simp only [itemCount, hs] at h1 h2
    simp only [applyDeviceItem, hs]
    by_cases ha : k = "Model name"
    · rw [if_pos ha]
      exact ⟨_, rfl⟩
    · rw [if_neg ha]
      by_cases hb : k = "Unique ID"
      · rw [if_pos hb]
        exact ⟨_, rfl⟩
      · rw [if_neg hb]
        by_cases hc : k = "Video inputs"
        · rw [if_pos hc]
          rw [if_pos hc] at h1
          rw [if_neg (Int.not_lt.mpr (by simpa using h1))]
          exact ⟨_, rfl⟩
        · rw [if_neg hc]
          by_cases he : k = "Video outputs"
          · rw [if_pos he]
            rw [if_pos he] at h2
            rw [if_neg (Int.not_lt.mpr (by simpa using h2))]
            exact ⟨_, rfl⟩
          · rw [if_neg he]
            exact ⟨_, rfl⟩
  · exact ⟨vh, by simp [applyDeviceItem, hs]⟩

theorem processVideohubDevice_total (contents : List String) :
    ∀ vh : Videohub,
    (∀ item ∈ contents, 0 ≤ (itemCount "Video inputs" item).getD 0
        ∧ 0 ≤ (itemCount "Video outputs" item).getD 0) →
    ∃ vh2, processVideohubDevice contents vh = some vh2 := by
  induction contents with
  | nil => exact fun vh _ => ⟨vh, rfl⟩
  | cons item rest ih =>
    intro vh h
    obtain ⟨hm1, hm2⟩ := h item (List.mem_cons_self _ _)
    obtain ⟨vhm, hvm⟩ := applyDeviceItem_total vh item hm1 hm2
    obtain ⟨vh2, hv2⟩ := ih vhm (fun it hit => h it (List.mem_cons_of_mem _ hit))
    exact ⟨vh2, by simp [processVideohubDevice, hvm, hv2]⟩

theorem lastCountValue_exists_mem (key : String) (contents : List String) (n : Int)
    (h : lastCountValue key contents = some n) :
    ∃ item ∈ contents, itemCount key item = some n := by
  induction contents with
  | nil => simp [lastCountValue] at h
  | cons item rest ih =>
    rw [lastCountValue] at h
    cases hl : lastCountValue key rest with
    | some v =>
      rw [hl] at h
      injection h with h
      subst h
      obtain ⟨it, hit, hic⟩ := ih hl
      exact ⟨it, List.mem_cons_of_mem _ hit, hic⟩
    | none =>
      rw [hl] at h
      exact ⟨item, List.mem_cons_self _ _, h⟩

/-! ### Claim theorems -/

/-- C5: decoding a well-formed device-info block (every two-part count
line carries a nonnegative number, and the block announces an input and
an output count) leaves the input label table with exactly the announced
input count as its length, and the output label table and the routing
matrix with exactly the announced output count, every routing entry at
the unknown sentinel -1; in particular the concrete device-info block
of Scenario A yields four inputs, two outputs and routing `[-1, -1]`. -/
theorem c5_device_info_topology (contents : List String) (vh : Videohub) (n m : Int)
    (hwf : ∀ item ∈ contents, 0 ≤ (itemCount "Video inputs" item).getD 0
        ∧ 0 ≤ (itemCount "Video outputs" item).getD 0)
    (hn : lastCountValue "Video inputs" contents = some n)
    (hm : lastCountValue "Video outputs" contents = some m) :
    (∃ vh2, processVideohubDevice contents vh = some vh2
      ∧ vh2.inputs = n ∧ vh2.inputLabels.length = n.toNat
      ∧ vh2.outputs = m ∧ vh2.outputLabels.length = m.toNat
      ∧ vh2.routing.length = m.toNat
      ∧ ∀ r ∈ vh2.routing, r = -1)
    ∧ decodeMessage "VIDEOHUB DEVICE:\nVideo inputs: 4\nVideo outputs: 2\n\n" initialVideohub
        = some { initialVideohub with
                  inputs := 4, inputLabels := ["", "", "", ""]
                  outputs := 2, outputLabels := ["", ""], routing := [-1, -1] } := by
  refine ⟨?_, by decide⟩
  obtain ⟨vh2, hv2⟩ := processVideohubDevice_total contents vh hwf
  obtain ⟨h1, h2, h3, h4, h5⟩ := processVideohubDevice_fields contents vh vh2 hv2
  rw [hn] at h1 h2
  rw [hm] at h3 h4 h5
  refine ⟨vh2, hv2, by simpa using h1, ?_, by simpa using h3, ?_, ?_, ?_⟩
  · simp only [h2]
    exact List.length_replicate _ _
  · simp only [h4]
    exact List.length_replicate _ _
  · simp only [h5]
    exact List.length_replicate _ _
  · intro r hr
    rw [h5] at hr
    exact List.eq_of_mem_replicate hr

theorem c5_device_info_topology_witness :
    ((∀ item ∈ ["Video inputs: 4", "Video outputs: 2"],
        0 ≤ (itemCount "Video inputs" item).getD 0
        ∧ 0 ≤ (itemCount "Video outputs" item).getD 0)
     ∧ lastCountValue "Video inputs" ["Video inputs: 4", "Video outputs: 2"] = some 4
     ∧ lastCountValue "Video outputs" ["Video inputs: 4", "Video outputs: 2"] = some 2)
    ∧ ∃ vh2, processVideohubDevice ["Video inputs: 4", "Video outputs: 2"] initialVideohub
          = some vh2
        ∧ vh2.inputs = 4 ∧ vh2.inputLabels.length = (4 : Int).toNat
        ∧ vh2.outputs = 2 ∧ vh2.outputLabels.length = (2 : Int).toNat
        ∧ vh2.routing.length = (2 : Int).toNat
        ∧ ∀ r ∈ vh2.routing, r = -1 :=
  ⟨⟨by decide, by decide, by decide⟩,
    (c5_device_info_topology ["Video inputs: 4", "Video outputs: 2"] initialVideohub 4 2
      (by decide) (by decide) (by decide)).1⟩

/-- C1 (code bug): the Frame Reader does NOT accumulate body lines until a
blank line.  On the four-line stream of a device-info block, the source
reads exactly one line after the header and hands `decodeMessage` that
body line with its last byte dropped, immediately followed by the body
line again; the header is discarded, so no handler can ever match.  Had
the full block reached the decoder, the state would have changed (third
conjunct). -/
theorem c1_frame_reader_two_line_cutoff :
    readerMessages ["VIDEOHUB DEVICE:\n", "Video inputs: 4\n", "Video outputs: 2\n", "\n"]
      = ["Video inputs: 4Video inputs: 4\n"]
    ∧ decodeMessage "Video inputs: 4Video inputs: 4\n" initialVideohub = some initialVideohub
    ∧ decodeMessage "VIDEOHUB DEVICE:\nVideo inputs: 4\nVideo outputs: 2\n\n" initialVideohub
        ≠ some initialVideohub :=
  ⟨by decide, by decide, by decide⟩

/-- C2 (counterexample to the claim as stated): on a topology with two
outputs, the routing line `5 0` is NOT dropped with the state unchanged;
the unchecked slice write panics, modelled as `none`. -/
theorem c2_claim_counterexample :
    processOutputRouting ["5 0"]
      { initialVideohub with outputs := 2, outputLabels := ["", ""], routing := [-1, -1] }
      = none := by decide

/-- C2 (amended): a routing or label body line with two tokens whose index
is in range of no table (index at least the table length) makes each
handler panic (`none`); the line is not dropped and the decode crashes. -/
theorem c2_out_of_range_index_panics (vh : Videohub) (line dTok rest : String)
    (hsplitN : goSplitN2 line " " = [dTok, rest])
    (hsplit : goSplit line " " = [dTok, rest])
    (_hd : 0 ≤ parseInt dTok)
    (hin : vh.inputLabels.length ≤ (parseInt dTok).toNat)
    (hout : vh.outputLabels.length ≤ (parseInt dTok).toNat)
    (hrout : vh.routing.length ≤ (parseInt dTok).toNat) :
    processInputLabels [line] vh = none
    ∧ processOutputLabels [line] vh = none
    ∧ processOutputRouting [line] vh = none := by
  refine ⟨?_, ?_, ?_⟩
  · have hcond : ¬ (0 ≤ parseInt dTok ∧ (parseInt dTok).toNat < vh.inputLabels.length) :=
      fun hc => Nat.not_lt.mpr hin hc.2
    simp [processInputLabels, hsplitN, setSlice, hcond]
  · have hcond : ¬ (0 ≤ parseInt dTok ∧ (parseInt dTok).toNat < vh.outputLabels.length) :=
      fun hc => Nat.not_lt.mpr hout hc.2
    simp [processOutputLabels, hsplitN, setSlice, hcond]
  · have hcond : ¬ (0 ≤ parseInt dTok ∧ (parseInt dTok).toNat < vh.routing.length) :=
      fun hc => Nat.not_lt.mpr hrout hc.2
    simp [processOutputRouting, hsplit, setSlice, hcond]

theorem c2_out_of_range_index_panics_witness :
    (goSplitN2 "5 0" " " = ["5", "0"]
     ∧ goSplit "5 0" " " = ["5", "0"]
     ∧ 0 ≤ parseInt "5"
     ∧ initialVideohub.inputLabels.length ≤ (parseInt "5").toNat
     ∧ initialVideohub.outputLabels.length ≤ (parseInt "5").toNat
     ∧ initialVideohub.routing.length ≤ (parseInt "5").toNat)
    ∧ (processInputLabels ["5 0"] initialVideohub = none
       ∧ processOutputLabels ["5 0"] initialVideohub = none
       ∧ processOutputRouting ["5 0"] initialVideohub = none) :=
  ⟨⟨by decide, by decide, by decide, by decide, by decide, by decide⟩,
    c2_out_of_range_index_panics initialVideohub "5 0" "5" "0"
      (by decide) (by decide) (by decide) (by decide) (by decide) (by decide)⟩

/-- C3 (counterexample to the claim as stated): the body line `abc Foo`
has a non-numeric index token, yet it is NOT dropped: `parseInt` returns 0
on the parse error, so the label is written at index 0 and the state
changes. -/
theorem c3_claim_counterexample :
    processInputLabels ["abc Foo"] { initialVideohub with inputs := 1, inputLabels := [""] }
      = some { initialVideohub with inputs := 1, inputLabels := ["Foo"] }
    ∧ ({ initialVideohub with inputs := 1, inputLabels := ["Foo"] } : Videohub)
      ≠ { initialVideohub with inputs := 1, inputLabels := [""] } :=
  ⟨by decide, by decide⟩

/-- C3 (amended): a line with the wrong token count is dropped
individually and the remaining lines of the block are still processed; a
line with a non-numeric index token is NOT dropped — `parseInt` yields 0
for it and the line is applied at index 0. -/
theorem c3_wrong_token_count_dropped (vh : Videohub) (restLines : List String) (line : String)
    (h1 : (goSplitN2 line " ").length ≠ 2)
    (h2 : (goSplit line " ").length ≠ 2) :
    (processInputLabels (line :: restLines) vh = processInputLabels restLines vh
     ∧ processOutputLabels (line :: restLines) vh = processOutputLabels restLines vh
     ∧ processOutputRouting (line :: restLines) vh = processOutputRouting restLines vh)
    ∧ parseInt "abc" = 0
    ∧ processInputLabels ["abc Foo"] { initialVideohub with inputs := 1, inputLabels := [""] }
        = some { initialVideohub with inputs := 1, inputLabels := ["Foo"] } := by
  refine ⟨⟨?_, ?_, ?_⟩, by decide, by decide⟩
  · rcases hs : goSplitN2 line " " with _ | ⟨a, _ | ⟨b, _ | ⟨c, t⟩⟩⟩
    · simp [processInputLabels, hs]
    · simp [processInputLabels, hs]
    · rw [hs] at h1; simp at h1
    · simp [processInputLabels, hs]
  · rcases hs : goSplitN2 line " " with _ | ⟨a, _ | ⟨b, _ | ⟨c, t⟩⟩⟩
    · simp [processOutputLabels, hs]
    · simp [processOutputLabels, hs]
    · rw [hs] at h1; simp at h1
    · simp [processOutputLabels, hs]
  · rcases hs : goSplit line " " with _ | ⟨a, _ | ⟨b, _ | ⟨c, t⟩⟩⟩
    · simp [processOutputRouting, hs]
    · simp [processOutputRouting, hs]
    · rw [hs] at h2; simp at h2
    · simp [processOutputRouting, hs]

theorem c3_wrong_token_count_dropped_witness :
    ((goSplitN2 "nospace" " ").length ≠ 2 ∧ (goSplit "nospace" " ").length ≠ 2)
    ∧ processInputLabels ["nospace"] initialVideohub
        = processInputLabels [] initialVideohub :=
  ⟨⟨by decide, by decide⟩,
    (c3_wrong_token_count_dropped initialVideohub [] "nospace" (by decide) (by decide)).1.1⟩

/-- C4 (counterexample to the claim as stated): when the dial inside
`reconnect` fails, `connect` calls `log.Fatalf`, which exits the process;
no error propagates to the caller and the process does not keep running. -/
theorem c4_claim_counterexample : reconnect false = ConnectResult.exitProcess := by decide

/-- C4 (amended): a failed connection attempt during `reconnect` is
handled exactly as at construction: `connect` exits the process fatally on
any dial failure, and never propagates an error. -/
theorem c4_reconnect_failure_fatal (dialSucceeds : Bool) :
    reconnect dialSucceeds = connect dialSucceeds
    ∧ (reconnect dialSucceeds = ConnectResult.exitProcess ↔ dialSucceeds = false) := by
  cases dialSucceeds <;> simp [reconnect, connect]

/-- C6: applying a sequence of routing blocks whose parsed pairs all have
in-range destinations succeeds, keeps the routing length, and leaves at
each destination the source of the LAST line for it, in arrival order
within and across blocks. -/
theorem c6_routing_last_write_wins (blocks : List (List String)) (vh : Videohub)
    (h : ∀ p ∈ allRoutingPairs blocks, 0 ≤ p.1 ∧ p.1.toNat < vh.routing.length) :
    ∃ vh2, processRoutingBlocks blocks vh = some vh2
      ∧ vh2.routing.length = vh.routing.length
      ∧ ∀ (d : Nat) (src : Int), lastWriteFor d (allRoutingPairs blocks) = some src →
          vh2.routing[d]? = some src := by
  refine ⟨_, processRoutingBlocks_eq blocks vh h, by simp [applyWrites_length], ?_⟩
  intro d src hlast
  have hmem := lastWriteFor_mem d (allRoutingPairs blocks) src hlast
  have hd : d < vh.routing.length := by
    have := (h _ hmem).2
    simpa using this
  show (applyWrites (allRoutingPairs blocks) vh.routing)[d]? = some src
  rw [applyWrites_getElem? _ _ _ (fun p hp => (h p hp).1), hlast]
  simp [hd]

theorem c6_routing_last_write_wins_witness :
    (∀ p ∈ allRoutingPairs [["0 3", "1 0"], ["0 2"]], 0 ≤ p.1
       ∧ p.1.toNat < ({ initialVideohub with
            outputs := 2, outputLabels := ["", ""], routing := [-1, -1] } : Videohub).routing.length)
    ∧ ∃ vh2, processRoutingBlocks [["0 3", "1 0"], ["0 2"]]
          { initialVideohub with outputs := 2, outputLabels := ["", ""], routing := [-1, -1] }
          = some vh2
        ∧ vh2.routing.length = ({ initialVideohub with
            outputs := 2, outputLabels := ["", ""], routing := [-1, -1] } : Videohub).routing.length
        ∧ ∀ (d : Nat) (src : Int),
            lastWriteFor d (allRoutingPairs [["0 3", "1 0"], ["0 2"]]) = some src →
              vh2.routing[d]? = some src :=
  ⟨by decide,
    c6_routing_last_write_wins [["0 3", "1 0"], ["0 2"]]
      { initialVideohub with outputs := 2, outputLabels := ["", ""], routing := [-1, -1] }
      (by decide)⟩

/-- C7: applying a label block whose parsed pairs all have in-range
indices succeeds, and each touched entry holds the label of the LAST line
for its index; the stored text is the remainder of the body line after the
FIRST space, so a label containing spaces is kept verbatim, as the
concrete `2 Camera B` line shows. -/
theorem c7_label_last_write_wins (contents : List String) (vh : Videohub)
    (hin : ∀ p ∈ labelPairs contents, 0 ≤ p.1 ∧ p.1.toNat < vh.inputLabels.length)
    (hout : ∀ p ∈ labelPairs contents, 0 ≤ p.1 ∧ p.1.toNat < vh.outputLabels.length) :
    (∃ vh2, processInputLabels contents vh = some vh2
       ∧ ∀ (i : Nat) (lbl : String), lastWriteFor i (labelPairs contents) = some lbl →
           vh2.inputLabels[i]? = some lbl)
    ∧ (∃ vh2, processOutputLabels contents vh = some vh2
       ∧ ∀ (i : Nat) (lbl : String), lastWriteFor i (labelPairs contents) = some lbl →
           vh2.outputLabels[i]? = some lbl)
    ∧ goSplitN2 "2 Camera B" " " = ["2", "Camera B"]
    ∧ processInputLabels ["2 Camera B"]
        { initialVideohub with inputs := 4, inputLabels := ["", "", "", ""] }
        = some { initialVideohub with
                  inputs := 4, inputLabels := ["", "", "Camera B", ""] } := by
  refine ⟨⟨_, processInputLabels_eq contents vh hin, ?_⟩,
         ⟨_, processOutputLabels_eq contents vh hout, ?_⟩, by decide, by decide⟩
  · intro i lbl hlast
    have hmem := lastWriteFor_mem i (labelPairs contents) lbl hlast
    have hi : i < vh.inputLabels.length := by
      have := (hin _ hmem).2
      simpa using this
    show (applyWrites (labelPairs contents) vh.inputLabels)[i]? = some lbl
    rw [applyWrites_getElem? _ _ _ (fun p hp => (hin p hp).1), hlast]
    simp [hi]
  · intro i lbl hlast
    have hmem := lastWriteFor_mem i (labelPairs contents) lbl hlast
    have hi : i < vh.outputLabels.length := by
      have := (hout _ hmem).2
      simpa using this
    show (applyWrites (labelPairs contents) vh.outputLabels)[i]? = some lbl
    rw [applyWrites_getElem? _ _ _ (fun p hp => (hout p hp).1), hlast]
    simp [hi]

theorem c7_label_last_write_wins_witness :
    ((∀ p ∈ labelPairs ["2 Camera B", "2 Cam Two"], 0 ≤ p.1
        ∧ p.1.toNat < ({ initialVideohub with
             inputs := 4, outputs := 4, inputLabels := ["", "", "", ""]
             outputLabels := ["", "", "", ""] } : Videohub).inputLabels.length)
     ∧ (∀ p ∈ labelPairs ["2 Camera B", "2 Cam Two"], 0 ≤ p.1
        ∧ p.1.toNat < ({ initialVideohub with
             inputs := 4, outputs := 4, inputLabels := ["", "", "", ""]
             outputLabels := ["", "", "", ""] } : Videohub).outputLabels.length))
    ∧ (∃ vh2, processInputLabels ["2 Camera B", "2 Cam Two"]
          { initialVideohub with
             inputs := 4, outputs := 4, inputLabels := ["", "", "", ""]
             outputLabels := ["", "", "", ""] } = some vh2
        ∧ ∀ (i : Nat) (lbl : String),
            lastWriteFor i (labelPairs ["2 Camera B", "2 Cam Two"]) = some lbl →
              vh2.inputLabels[i]? = some lbl) :=
  ⟨⟨by decide, by decide⟩,
    (c7_label_last_write_wins ["2 Camera B", "2 Cam Two"]
      { initialVideohub with
         inputs := 4, outputs := 4, inputLabels := ["", "", "", ""]
         outputLabels := ["", "", "", ""] }
      (by decide) (by decide)).1⟩

/-- C8: `InputLabel(index, text)` writes exactly
`INPUT LABELS:` newline index space text and the two-newline terminator,
the terminator appended by `send`; at `(2, "Camera B")` the bytes are
exactly the claimed literal. -/
theorem c8_input_label_wire_bytes (index : Int) (text : String) :
    sendWire (InputLabel index text)
      = "INPUT LABELS:\n" ++ toString index ++ " " ++ text ++ "\n\n"
    ∧ sendWire (InputLabel 2 "Camera B") = "INPUT LABELS:\n2 Camera B\n\n" :=
  ⟨rfl, by decide⟩

/-- C9: `Route(d, s)` and `BulkRoute([(d, s)])` hand `send` the same
command, hence write identical bytes to the connection. -/
theorem c9_route_refines_bulkroute (destination source : Int) :
    sendWire (Route destination source) = sendWire (BulkRoute [(destination, source)]) := by
  have h : ("VIDEO OUTPUT ROUTING:" : String) ++ "\n" = "VIDEO OUTPUT ROUTING:\n" := by decide
  simp only [sendWire, Route, BulkRoute, List.foldl, h]

/-- C10: a preamble or device-info body line whose value itself contains
the separator `": "` splits into three or more parts, so the exact
two-part guard fails and the line is dropped entirely, leaving every field
unchanged; `Model name: Hub: Main` is such a line. -/
theorem c10_embedded_separator_dropped (line : String) (vh : Videohub)
    (h : (goSplit line ": ").length ≠ 2) :
    processProtocolPreamble [line] vh = vh
    ∧ processVideohubDevice [line] vh = some vh
    ∧ goSplit "Model name: Hub: Main" ": " = ["Model name", "Hub", "Main"]
    ∧ processVideohubDevice ["Model name: Hub: Main"] vh = some vh := by
  have hmodel : goSplit "Model name: Hub: Main" ": " = ["Model name", "Hub", "Main"] := by
    decide
  refine ⟨?_, ?_, hmodel, ?_⟩
  · rcases hs : goSplit line ": " with _ | ⟨a, _ | ⟨b, _ | ⟨c, t⟩⟩⟩
    · simp [processProtocolPreamble, hs]
    · simp [processProtocolPreamble, hs]
    · rw [hs] at h; simp at h
    · simp [processProtocolPreamble, hs]
  · rcases hs : goSplit line ": " with _ | ⟨a, _ | ⟨b, _ | ⟨c, t⟩⟩⟩
    · simp [processVideohubDevice, applyDeviceItem, hs]
    · simp [processVideohubDevice, applyDeviceItem, hs]
    · rw [hs] at h; simp at h
    · simp [processVideohubDevice, applyDeviceItem, hs]
  · simp [processVideohubDevice, applyDeviceItem, hmodel]

theorem c10_embedded_separator_dropped_witness :
    (goSplit "Model name: Hub: Main" ": ").length ≠ 2
    ∧ processProtocolPreamble ["Model name: Hub: Main"] initialVideohub = initialVideohub :=
  ⟨by decide,
    (c10_embedded_separator_dropped "Model name: Hub: Main" initialVideohub (by decide)).1⟩

end Pydeohub
